/-
  Verification of the SwingSage technical-indicator and signal-screening engine.

  Shallow embedding of the core engine:
    * indicator library (`sma`, `ema`, `rsi`, `macd`, `bollinger`, `atr`)
      from `src/lib/indicators.ts`,
    * signal generator (`generateSignals`) from `src/lib/signals.ts`,
    * screener filter evaluator (`evaluateFilters`, `confidenceScore`)
      from `src/lib/screener.ts`,
    * weekly resampling and per-symbol inclusion logic of the screener
      orchestrator from `src/app/api/search/route.ts`.

  JavaScript numbers are modelled as exact rationals (`ℚ`); `null` entries of
  indicator arrays are modelled as `Option ℚ` with `none` for `null`, and a
  JS array read `a[i]` combined with a `!= null` test is modelled by `idx`
  (out-of-range and `null` coincide, as they do under the source's
  `v != null` checks).  `Math.round` is `⌊x + 1/2⌋`, exact on the rationals
  the source feeds it.  The `reason` strings of trade signals are
  presentational interpolations of already-modelled numbers and are omitted
  from the embedded `TradeSignal`; timestamps are opaque naturals.
-/
import Mathlib

namespace Swingsage

/-- JS `arr[i]` followed by a null test: out-of-range reads and stored `null`s
    both behave as `null`. -/
def idx (xs : List (Option ℚ)) (i : ℕ) : Option ℚ :=
  xs.getD i none

/-- `average` from `screener.ts` / `signals.ts`: mean of a list, `0` for `[]`. -/
def average (arr : List ℚ) : ℚ :=
  if arr = [] then 0 else arr.sum / arr.length

/-- JS `arr.slice(-n)`: the last `n` elements. -/
def lastN (n : ℕ) (arr : List ℚ) : List ℚ :=
  arr.drop (arr.length - n)

/-- JS `Math.round`: round half towards positive infinity. -/
def jsRound (x : ℚ) : ℚ :=
  ((⌊x + 1/2⌋ : ℤ) : ℚ)

/-- `Math.round(x * 100) / 100`: round to 2 decimal places. -/
def round2 (x : ℚ) : ℚ :=
  jsRound (x * 100) / 100

/-! ### Indicator library (`src/lib/indicators.ts`) -/

/-- `sma(values, period)`: arithmetic mean of the trailing `period` values,
    `null` before index `period - 1`; all-`null` when `period <= 0` or
    `period > values.length`. -/
def sma (values : List ℚ) (period : ℕ) : List (Option ℚ) :=
  if period = 0 ∨ values.length < period then values.map (fun _ => none)
  else (List.range values.length).map (fun i =>
    if i + 1 < period then none
    else some (((values.drop (i + 1 - period)).take period).sum / period))

/-- The running-EMA loop of `ema`: starting from accumulator `e`, each value
    `v` contributes `v * k + e * (1 - k)`. -/
def emaGo (k : ℚ) (e : ℚ) : List ℚ → List ℚ
  | [] => []
  | v :: vs => (v * k + e * (1 - k)) :: emaGo k (v * k + e * (1 - k)) vs

/-- `ema(values, period)`: `null` before index `period - 1`; the first value,
    at index `period - 1`, is the SMA of the first `period` values; afterwards
    the recurrence `ema[i] = values[i]*k + ema[i-1]*(1-k)` with
    `k = 2/(period+1)`.  When `values.length < period` the source's loop never
    reaches the seeding index and yields all `null`s, reflected here by the
    middle branch. -/
def ema (values : List ℚ) (period : ℕ) : List (Option ℚ) :=
  if period = 0 ∨ values.length = 0 then values.map (fun _ => none)
  else if values.length < period then values.map (fun _ => none)
  else
    List.replicate (period - 1) (none : Option ℚ) ++
      (some ((values.take period).sum / period) ::
        (emaGo (2 / (period + 1)) ((values.take period).sum / period)
          (values.drop period)).map some)

/-- The consecutive differences `values[i] - values[i-1]` (`i = 1..`). -/
def rsiDeltas : List ℚ → List ℚ
  | [] => []
  | [_] => []
  | a :: b :: rest => (b - a) :: rsiDeltas (b :: rest)

/-- Gains of `rsi`: positive delta, else `0`. -/
def gainsOf (values : List ℚ) : List ℚ :=
  (rsiDeltas values).map (fun c => if 0 < c then c else 0)

/-- Losses of `rsi`: absolute negative delta, else `0`. -/
def lossesOf (values : List ℚ) : List ℚ :=
  (rsiDeltas values).map (fun c => if c < 0 then |c| else 0)

/-- Average gain over the trailing `period` deltas ending at gains-index `i`. -/
def avgGainAt (values : List ℚ) (period : ℕ) (i : ℕ) : ℚ :=
  (((gainsOf values).drop (i + 1 - period)).take period).sum / period

/-- Average loss over the trailing `period` deltas ending at gains-index `i`. -/
def avgLossAt (values : List ℚ) (period : ℕ) (i : ℕ) : ℚ :=
  (((lossesOf values).drop (i + 1 - period)).take period).sum / period

/-- `rsi(values, period)`: all-`null` when `period <= 0` or
    `values.length < period + 1`; otherwise a leading `null` followed by, for
    each gains-index `i`, `null` while `i < period - 1`, `100` when the
    average loss is exactly `0`, else `100 - 100/(1 + avgGain/avgLoss)`
    rounded to 2 decimals. -/
def rsi (values : List ℚ) (period : ℕ) : List (Option ℚ) :=
  if period = 0 ∨ values.length < period + 1 then values.map (fun _ => none)
  else none :: (List.range (values.length - 1)).map (fun i =>
    if i + 1 < period then none
    else if avgLossAt values period i = 0 then some 100
    else some (round2 (100 - 100 / (1 + avgGainAt values period i / avgLossAt values period i))))

/-- `macd(values, fast, slow, signalPeriod)` components. -/
structure MacdData where
  macdLine : List (Option ℚ)
  signalLine : List (Option ℚ)
  histogram : List (Option ℚ)

/-- `macd`: `macdLine[i] = emaFast[i] - emaSlow[i]` (`null` if either is);
    `signalLine = ema(macdLine with null as 0, signalPeriod)`;
    `histogram[i] = macdLine[i] - signalLine[i]` (`null` if either is). -/
def macd (values : List ℚ) (fast slow signalPeriod : ℕ) : MacdData :=
  let emaFast := ema values fast
  let emaSlow := ema values slow
  let macdLine := (List.range values.length).map (fun i =>
    match idx emaFast i, idx emaSlow i with
    | some f, some s => some (f - s)
    | _, _ => none)
  let signalLine := ema (macdLine.map (fun v => v.getD 0)) signalPeriod
  let histogram := (List.range macdLine.length).map (fun i =>
    match idx macdLine i, idx signalLine i with
    | some m, some s => some (m - s)
    | _, _ => none)
  ⟨macdLine, signalLine, histogram⟩

/-- The per-window population variance of `bollinger`: for each index with a
    full window, `Σ (v - mean)² / period` with `mean = sma(values, period)[i]`.
    The source's `upper`/`lower` bands are `mid ± k·√variance`; since the
    square root of a rational is irrational, the bands are represented by
    `mid` (= `sma values period`) together with this variance sequence, and
    the band comparisons by `aboveUpper`/`belowLower`, proved equivalent to
    the square-root form in `aboveUpper_iff_real`/`belowLower_iff_real`.
    `upper`/`lower` are `null` exactly where `mid` is. -/
def bollingerVariance (values : List ℚ) (period : ℕ) : List (Option ℚ) :=
  (List.range values.length).map (fun i =>
    if i + 1 < period then none
    else some ((((values.drop (i + 1 - period)).take period).map
      (fun v => (v - (idx (sma values period) i).getD 0) ^ 2)).sum / period))

/-- `price > mean + k·√variance`, expressed without the square root. -/
def aboveUpper (price mean variance k : ℚ) : Prop :=
  mean < price ∧ k ^ 2 * variance < (price - mean) ^ 2

instance (price mean variance k : ℚ) : Decidable (aboveUpper price mean variance k) :=
  inferInstanceAs (Decidable (_ ∧ _))

/-- `price < mean - k·√variance`, expressed without the square root. -/
def belowLower (price mean variance k : ℚ) : Prop :=
  price < mean ∧ k ^ 2 * variance < (mean - price) ^ 2

instance (price mean variance k : ℚ) : Decidable (belowLower price mean variance k) :=
  inferInstanceAs (Decidable (_ ∧ _))

/-- The true-range series of `atr`: `high - low` at index 0, else
    `max(high-low, |high-prevClose|, |low-prevClose|)`. -/
def trueRanges (highs lows closes : List ℚ) : List ℚ :=
  (List.range highs.length).map (fun i =>
    if i = 0 then highs.getD 0 0 - lows.getD 0 0
    else max (highs.getD i 0 - lows.getD i 0)
      (max |highs.getD i 0 - closes.getD (i - 1) 0| |lows.getD i 0 - closes.getD (i - 1) 0|))

/-- `atr(highs, lows, closes, period)`: the EMA of the true ranges. -/
def atr (highs lows closes : List ℚ) (period : ℕ) : List (Option ℚ) :=
  ema (trueRanges highs lows closes) period

/-! ### Data model (`src/lib/signals.ts`, `src/lib/api.ts`) -/

inductive SignalType where
  | BUY
  | SELL
deriving DecidableEq

inductive SignalIndicator where
  | RSI
  | EMA
  | MACD
  | BOLLINGER
  | ATR
deriving DecidableEq

inductive Strength where
  | weak
  | moderate
  | strong
deriving DecidableEq

/-- A trade signal.  The source's `reason` string interpolates already-modelled
    numbers and is presentational, so it is omitted; the `timestamp` string is
    an opaque natural here. -/
structure TradeSignal where
  type : SignalType
  indicator : SignalIndicator
  strength : Strength
  timestamp : ℕ
deriving DecidableEq

/-- A daily OHLCV bar (`DailyBar`); `volume` is optional and read as
    `b.volume || 0`. -/
structure Bar where
  time : ℕ
  «open» : ℚ
  high : ℚ
  low : ℚ
  close : ℚ
  volume : Option ℚ
deriving DecidableEq

def closesOf (bars : List Bar) : List ℚ := bars.map Bar.close

def highsOf (bars : List Bar) : List ℚ := bars.map Bar.high

def lowsOf (bars : List Bar) : List ℚ := bars.map Bar.low

/-- `bars.map(b => b.volume || 0)`. -/
def volumesOf (bars : List Bar) : List ℚ := bars.map (fun b => b.volume.getD 0)

/-- `i = bars.length - 1`, the latest index. -/
def lastIdx (bars : List Bar) : ℕ := bars.length - 1

/-- `bars[i].time` at the latest index. -/
def tsOf (bars : List Bar) : ℕ := ((bars.map Bar.time).getD (lastIdx bars) 0)

/-! ### Signal generator (`src/lib/signals.ts`) -/

/-- Rule 1: RSI crossing 30 upward (BUY, `moderate` if curr < 40 else `weak`)
    or 70 downward (SELL, `moderate` if curr > 60 else `weak`). -/
def rsiCrossSignals (rsi14 : List (Option ℚ)) (i : ℕ) (ts : ℕ) : List TradeSignal :=
  match idx rsi14 (i - 1), idx rsi14 i with
  | some p, some c =>
    if p < 30 ∧ 30 ≤ c then
      [⟨.BUY, .RSI, if c < 40 then .moderate else .weak, ts⟩]
    else if 70 < p ∧ c ≤ 70 then
      [⟨.SELL, .RSI, if 60 < c then .moderate else .weak, ts⟩]
    else []
  | _, _ => []

/-- Rules 2/3: price crossing an EMA series between the previous and latest
    bar (`moderate` against EMA20, `strong` against EMA50). -/
def emaCrossSignals (emaSeries : List (Option ℚ)) (closes : List ℚ) (i : ℕ)
    (strength : Strength) (ts : ℕ) : List TradeSignal :=
  match idx emaSeries (i - 1), idx emaSeries i with
  | some pema, some cema =>
    if closes.getD (i - 1) 0 < pema ∧ cema < closes.getD i 0 then
      [⟨.BUY, .EMA, strength, ts⟩]
    else if pema < closes.getD (i - 1) 0 ∧ closes.getD i 0 < cema then
      [⟨.SELL, .EMA, strength, ts⟩]
    else []
  | _, _ => []

/-- Rule 4: MACD line crossing the signal line. -/
def macdCrossSignals (md : MacdData) (i : ℕ) (ts : ℕ) : List TradeSignal :=
  match idx md.macdLine (i - 1), idx md.signalLine (i - 1),
      idx md.macdLine i, idx md.signalLine i with
  | some pm, some ps, some cm, some cs =>
    if pm ≤ ps ∧ cs < cm then [⟨.BUY, .MACD, .moderate, ts⟩]
    else if ps ≤ pm ∧ cm < cs then [⟨.SELL, .MACD, .moderate, ts⟩]
    else []
  | _, _, _, _ => []

/-- Rule 5: Bollinger band breakout with a volume spike.  The source guards on
    `bb.upper[i] != null && bb.lower[i] != null && sma20[i] != null`; the
    bands are `null` exactly where `bbMid` is, so the guard is the
    corresponding `isSome` conjunction.  `close > upper` / `close < lower`
    are the square-root-free `aboveUpper` / `belowLower`. -/
def bollingerSignals (bbMid bbVar sma20 : List (Option ℚ)) (closes volumes : List ℚ)
    (i : ℕ) (ts : ℕ) : List TradeSignal :=
  if (idx bbMid i).isSome ∧ (idx bbMid i).isSome ∧ (idx sma20 i).isSome then
    if aboveUpper (closes.getD i 0) ((idx bbMid i).getD 0) ((idx bbVar i).getD 0) 2 ∧
        3/2 * average (lastN 20 volumes) < volumes.getD i 0 then
      [⟨.BUY, .BOLLINGER, .strong, ts⟩]
    else if belowLower (closes.getD i 0) ((idx bbMid i).getD 0) ((idx bbVar i).getD 0) 2 ∧
        3/2 * average (lastN 20 volumes) < volumes.getD i 0 then
      [⟨.SELL, .BOLLINGER, .strong, ts⟩]
    else []
  else []

/-- The trend-context mutation of one signal: a non-`strong` BUY in an uptrend
    (or non-`strong` SELL in a non-uptrend) becomes `moderate`. -/
def trendAdjust (trendUp : Bool) (s : TradeSignal) : TradeSignal :=
  let s1 := if s.type = .BUY ∧ trendUp = true ∧ s.strength ≠ .strong then
    { s with strength := .moderate } else s
  if s1.type = .SELL ∧ trendUp = false ∧ s1.strength ≠ .strong then
    { s1 with strength := .moderate } else s1

/-- The volatility mutation of one signal: forced to `strong` when the latest
    move exceeds the current ATR. -/
def volAdjust (move currentAtr : ℚ) (s : TradeSignal) : TradeSignal :=
  if currentAtr < move ∧ s.strength ≠ .strong then { s with strength := .strong } else s

/-- The signal list pushed by rules 1-5, in source order. -/
def rawSignals (bars : List Bar) : List TradeSignal :=
  rsiCrossSignals (rsi (closesOf bars) 14) (lastIdx bars) (tsOf bars)
  ++ emaCrossSignals (ema (closesOf bars) 20) (closesOf bars) (lastIdx bars) .moderate (tsOf bars)
  ++ emaCrossSignals (ema (closesOf bars) 50) (closesOf bars) (lastIdx bars) .strong (tsOf bars)
  ++ macdCrossSignals (macd (closesOf bars) 12 26 9) (lastIdx bars) (tsOf bars)
  ++ bollingerSignals (sma (closesOf bars) 20) (bollingerVariance (closesOf bars) 20)
      (sma (closesOf bars) 20) (closesOf bars) (volumesOf bars) (lastIdx bars) (tsOf bars)

/-- Trend-context pass: when SMA50 and SMA200 are defined at the latest bar,
    every signal is adjusted with `trendUp = (sma50[i] > sma200[i])`. -/
def applyTrendContext (bars : List Bar) (l : List TradeSignal) : List TradeSignal :=
  if (idx (sma (closesOf bars) 50) (lastIdx bars)).isSome ∧
      (idx (sma (closesOf bars) 200) (lastIdx bars)).isSome then
    l.map (trendAdjust (decide ((idx (sma (closesOf bars) 200) (lastIdx bars)).getD 0 <
      (idx (sma (closesOf bars) 50) (lastIdx bars)).getD 0)))
  else l

/-- Volatility pass: when ATR14 is defined at the latest bar, every signal is
    adjusted with the absolute latest move and the current ATR. -/
def applyVolatilityContext (bars : List Bar) (l : List TradeSignal) : List TradeSignal :=
  if (idx (atr (highsOf bars) (lowsOf bars) (closesOf bars) 14) (lastIdx bars)).isSome then
    l.map (volAdjust
      |(closesOf bars).getD (lastIdx bars) 0 - (closesOf bars).getD (lastIdx bars - 1) 0|
      ((idx (atr (highsOf bars) (lowsOf bars) (closesOf bars) 14) (lastIdx bars)).getD 0))
  else l

/-- `generateSignals(bars)`: empty for fewer than 30 bars, otherwise the
    rule signals after the trend-context and volatility passes. -/
def generateSignals (bars : List Bar) : List TradeSignal :=
  if bars.length < 30 then []
  else applyVolatilityContext bars (applyTrendContext bars (rawSignals bars))

/-! ### Screener filter evaluator (`src/lib/screener.ts`) -/

inductive ScreenerFilterId where
  | rsiOversold
  | rsiOverbought
  | emaBullish
  | emaBearish
  | macdBullish
  | macdBearish
  | bbBreakoutUp
  | bbBreakdown
  | atrSpike
  | trendReversal
deriving DecidableEq

/-- The indicator series `evaluateFilters` computes once over the bar series,
    plus the latest index, price, timestamp and trailing-20 ATR average. -/
structure FilterCtx where
  closes : List ℚ
  volumes : List ℚ
  i : ℕ
  ts : ℕ
  price : ℚ
  rsi14 : List (Option ℚ)
  ema20 : List (Option ℚ)
  ema50 : List (Option ℚ)
  macdData : MacdData
  bbMid : List (Option ℚ)
  bbVar : List (Option ℚ)
  atr14 : List (Option ℚ)
  atrAvg20 : ℚ

def mkFilterCtx (bars : List Bar) : FilterCtx :=
  { closes := closesOf bars
    volumes := volumesOf bars
    i := lastIdx bars
    ts := tsOf bars
    price := (closesOf bars).getD (lastIdx bars) 0
    rsi14 := rsi (closesOf bars) 14
    ema20 := ema (closesOf bars) 20
    ema50 := ema (closesOf bars) 50
    macdData := macd (closesOf bars) 12 26 9
    bbMid := sma (closesOf bars) 20
    bbVar := bollingerVariance (closesOf bars) 20
    atr14 := atr (highsOf bars) (lowsOf bars) (closesOf bars) 14
    atrAvg20 := average
      (((atr (highsOf bars) (lowsOf bars) (closesOf bars) 14).drop
        ((atr (highsOf bars) (lowsOf bars) (closesOf bars) 14).length - 20)).filterMap id) }

/-- The EMA20-cross sub-condition of the `trendReversal` filter: an upward
    price cross of EMA20 at one of the last three completed bars
    (`for k = 1..3 while i - k >= 1`, with `break` on the first hit). -/
def trendReversalEmaCond (closes : List ℚ) (ema20 : List (Option ℚ)) (i : ℕ) : Bool :=
  [1, 2, 3].any (fun k => decide (k + 1 ≤ i) &&
    match idx ema20 (i - k - 1), idx ema20 (i - k) with
    | some pe, some ce =>
      decide (closes.getD (i - k - 1) 0 < pe) && decide (ce < closes.getD (i - k) 0)
    | _, _ => false)

/-- One iteration of the `switch` in `evaluateFilters`: the signals matched by
    a single requested filter id at the latest bar. -/
def evalOneFilter (ctx : FilterCtx) : ScreenerFilterId → List TradeSignal
  | .rsiOversold =>
    match idx ctx.rsi14 ctx.i with
    | some v => if v < 30 then [⟨.BUY, .RSI, .moderate, ctx.ts⟩] else []
    | none => []
  | .rsiOverbought =>
    match idx ctx.rsi14 ctx.i with
    | some v => if 70 < v then [⟨.SELL, .RSI, .moderate, ctx.ts⟩] else []
    | none => []
  | .emaBullish =>
    match idx ctx.ema20 ctx.i, idx ctx.ema50 ctx.i with
    | some e20, some e50 =>
      if e20 < ctx.price ∧ e50 < e20 then [⟨.BUY, .EMA, .strong, ctx.ts⟩] else []
    | _, _ => []
  | .emaBearish =>
    match idx ctx.ema20 ctx.i, idx ctx.ema50 ctx.i with
    | some e20, some e50 =>
      if ctx.price < e20 ∧ e20 < e50 then [⟨.SELL, .EMA, .strong, ctx.ts⟩] else []
    | _, _ => []
  | .macdBullish =>
    match idx ctx.macdData.macdLine (ctx.i - 1), idx ctx.macdData.signalLine (ctx.i - 1),
        idx ctx.macdData.macdLine ctx.i, idx ctx.macdData.signalLine ctx.i with
    | some pm, some ps, some cm, some cs =>
      if pm ≤ ps ∧ cs < cm then [⟨.BUY, .MACD, .moderate, ctx.ts⟩] else []
    | _, _, _, _ => []
  | .macdBearish =>
    match idx ctx.macdData.macdLine (ctx.i - 1), idx ctx.macdData.signalLine (ctx.i - 1),
        idx ctx.macdData.macdLine ctx.i, idx ctx.macdData.signalLine ctx.i with
    | some pm, some ps, some cm, some cs =>
      if ps ≤ pm ∧ cm < cs then [⟨.SELL, .MACD, .moderate, ctx.ts⟩] else []
    | _, _, _, _ => []
  | .bbBreakoutUp =>
    if (idx ctx.bbMid ctx.i).isSome then
      if aboveUpper ctx.price ((idx ctx.bbMid ctx.i).getD 0) ((idx ctx.bbVar ctx.i).getD 0) 2 ∧
          3/2 * average (lastN 20 ctx.volumes) < ctx.volumes.getD ctx.i 0 then
        [⟨.BUY, .BOLLINGER, .strong, ctx.ts⟩]
      else []
    else []
  | .bbBreakdown =>
    if (idx ctx.bbMid ctx.i).isSome then
      if belowLower ctx.price ((idx ctx.bbMid ctx.i).getD 0) ((idx ctx.bbVar ctx.i).getD 0) 2 ∧
          3/2 * average (lastN 20 ctx.volumes) < ctx.volumes.getD ctx.i 0 then
        [⟨.SELL, .BOLLINGER, .strong, ctx.ts⟩]
      else []
    else []
  | .atrSpike =>
    match idx ctx.atr14 ctx.i with
    | some curr =>
      if 0 < ctx.atrAvg20 ∧ 3/2 * ctx.atrAvg20 < curr then
        [⟨.BUY, .ATR, .moderate, ctx.ts⟩]
      else []
    | none => []
  | .trendReversal =>
    match idx ctx.rsi14 (ctx.i - 1), idx ctx.rsi14 ctx.i with
    | some p, some c =>
      if p < 30 ∧ 30 ≤ c ∧ trendReversalEmaCond ctx.closes ctx.ema20 ctx.i then
        [⟨.BUY, .EMA, .strong, ctx.ts⟩]
      else []
    | _, _ => []

/-- The indicator families implied by the requested filters: generated signals
    are merged in only when their indicator is in this set. -/
def indicatorsNeeded (filters : List ScreenerFilterId) : List SignalIndicator :=
  (if filters.contains .rsiOversold || filters.contains .rsiOverbought then
    [SignalIndicator.RSI] else []) ++
  (if filters.contains .emaBullish || filters.contains .emaBearish ||
      filters.contains .trendReversal then [SignalIndicator.EMA] else []) ++
  (if filters.contains .macdBullish || filters.contains .macdBearish then
    [SignalIndicator.MACD] else []) ++
  (if filters.contains .bbBreakoutUp || filters.contains .bbBreakdown then
    [SignalIndicator.BOLLINGER] else []) ++
  (if filters.contains .atrSpike then [SignalIndicator.ATR] else [])

/-- The result of `evaluateFilters`: matched signals and the latest price. -/
structure EvalResult where
  matched : List TradeSignal
  price : ℚ
deriving DecidableEq

/-- `evaluateFilters(bars, filters)`: `{matched: [], price: 0}` for fewer than
    30 bars; otherwise the per-filter rule matches (in filter order) followed
    by the generated signals whose indicator family is implied by some
    requested filter. -/
def evaluateFilters (bars : List Bar) (filters : List ScreenerFilterId) : EvalResult :=
  if bars.length < 30 then ⟨[], 0⟩
  else
    ⟨filters.flatMap (evalOneFilter (mkFilterCtx bars)) ++
      (generateSignals bars).filter
        (fun s => (indicatorsNeeded filters).contains s.indicator),
     (closesOf bars).getD (lastIdx bars) 0⟩

/-- The strength weights of `confidenceScore`. -/
def strengthWeight : Strength → ℚ
  | .weak => 3/5
  | .moderate => 4/5
  | .strong => 1

/-- `confidenceScore(signals)`: `0` for an empty list, otherwise the mean of
    the per-signal strength weights rounded to 2 decimals. -/
def confidenceScore (signals : List TradeSignal) : ℚ :=
  if signals.length = 0 then 0
  else round2 ((signals.map (fun s => strengthWeight s.strength)).sum / signals.length)

/-! ### Screener orchestrator (`src/app/api/search/route.ts`, screener POST) -/

/-- One weekly bar aggregated from a nonempty chunk of daily bars:
    `time`/`close` from the chunk's last bar, `open` from its first,
    `high`/`low` the max/min over the chunk, `volume` the sum of
    `c.volume || 0`.  The `[]` case is never produced by the resampler. -/
def weeklyOf : List Bar → Bar
  | [] => ⟨0, 0, 0, 0, 0, none⟩
  | c :: rest =>
    { time := ((c :: rest).getLast (by simp)).time
      «open» := c.«open»
      high := (rest.map Bar.high).foldl max c.high
      low := (rest.map Bar.low).foldl min c.low
      close := ((c :: rest).getLast (by simp)).close
      volume := some (((c :: rest).map (fun b => b.volume.getD 0)).sum) }

/-- The chunks `bars.slice(i, i + 5)` for `i = 0, 5, 10, ...`, skipping the
    empty tail chunk exactly as the source's `continue` does. -/
def groupsOf5 : List Bar → List (List Bar)
  | [] => []
  | a :: t => (a :: t).take 5 :: groupsOf5 ((a :: t).drop 5)
termination_by l => l.length
decreasing_by
  simp only [List.length_drop, List.length_cons]
  omega

/-- The weekly resampling loop of the orchestrator (run when
    `requireWeeklyAgree` is set): daily bars grouped 5 at a time from the
    first bar, each group aggregated by `weeklyOf`. -/
def resampleWeekly (bars : List Bar) : List Bar :=
  (groupsOf5 bars).map weeklyOf

/-- Modelled from the spec: `hasTwoPlusAgreement` is imported by the search
    route from the screener module, but its implementation is not among the
    provided sources (only this caller is).  Per §4.4 of the spec, the result
    is confirmed only if the matched signals span at least 2 distinct
    indicator families pointing the same direction (BUY vs SELL); a single
    strong signal from one indicator does not satisfy it. -/
def hasTwoPlusAgreementOk (signals : List TradeSignal) : Bool :=
  decide (∃ s ∈ signals, ∃ t ∈ signals, s.type = t.type ∧ s.indicator ≠ t.indicator)

/-- Modelled from the spec: `weightedConfidenceScore` is imported by the
    search route but its implementation is not among the provided sources.
    Per §4.4 step 5 of the spec it is the average of the matched-signal
    strength weights (`weak=0.6, moderate=0.8, strong=1.0`, the unweighted
    simple variant), i.e. `confidenceScore`. -/
def weightedConfidenceScore (signals : List TradeSignal) : ℚ :=
  confidenceScore signals

/-- The per-symbol inclusion decision of the orchestrator (route lines
    165-171): a symbol enters the results iff it has matched signals, the
    two-plus agreement holds when `requireTwoPlus` is set, the weighted
    confidence reaches `minConfidence`, and the weekly confirmation holds. -/
def includeSymbol (matched : List TradeSignal) (requireTwoPlus : Bool)
    (minConfidence : ℚ) (weeklyAgree : Bool) : Bool :=
  decide (0 < matched.length) &&
    ((if requireTwoPlus then hasTwoPlusAgreementOk matched else true) &&
      decide (minConfidence ≤ weightedConfidenceScore matched) && weeklyAgree)

/-! ### Generic access lemmas -/

theorem idx_eq_getElem? (xs : List (Option ℚ)) (i : ℕ) : idx xs i = (xs[i]?).getD none := by
  simp [idx, List.getD_eq_getElem?_getD]

theorem idx_range_map (f : ℕ → Option ℚ) (n j : ℕ) :
    idx ((List.range n).map f) j = if j < n then f j else none := by
  rw [idx_eq_getElem?, List.getElem?_map]
  rcases lt_or_ge j n with h | h
  · rw [List.getElem?_range h]
    simp [h]
  · rw [List.getElem?_eq_none (by simpa using h)]
    simp [Nat.not_lt.mpr h]

theorem idx_cons_succ (a : Option ℚ) (l : List (Option ℚ)) (j : ℕ) :
    idx (a :: l) (j + 1) = idx l j := List.getD_cons_succ

theorem idx_cons_zero (a : Option ℚ) (l : List (Option ℚ)) : idx (a :: l) 0 = a :=
  List.getD_cons_zero

theorem idx_map_const_none {α : Type} (l : List α) (j : ℕ) :
    idx (l.map fun _ => (none : Option ℚ)) j = none := by
  rw [idx_eq_getElem?]
  rcases lt_or_ge j l.length with h | h
  · simp [List.getElem?_map]
  · rw [List.getElem?_eq_none (by simpa using h)]
    rfl

theorem idx_append_left {l₁ l₂ : List (Option ℚ)} {j : ℕ} (h : j < l₁.length) :
    idx (l₁ ++ l₂) j = idx l₁ j := by
  rw [idx_eq_getElem?, idx_eq_getElem?, List.getElem?_append]
  simp [h]

theorem idx_append_right {l₁ l₂ : List (Option ℚ)} {j : ℕ} (h : l₁.length ≤ j) :
    idx (l₁ ++ l₂) j = idx l₂ (j - l₁.length) := by
  rw [idx_eq_getElem?, idx_eq_getElem?, List.getElem?_append_right h]

theorem idx_replicate_none (n j : ℕ) : idx (List.replicate n (none : Option ℚ)) j = none := by
  rw [idx_eq_getElem?, List.getElem?_replicate]
  split <;> rfl

/-! ### Structural lemmas about the indicator library -/

theorem sma_length (values : List ℚ) (period : ℕ) :
    (sma values period).length = values.length := by
  unfold sma
  split <;> simp

theorem sma_all_none (values : List ℚ) (period : ℕ) (h : values.length < period) :
    ∀ x ∈ sma values period, x = none := by
  unfold sma
  rw [if_pos (Or.inr h)]
  simp

theorem sma_idx (values : List ℚ) (period : ℕ) (hp : period ≠ 0)
    (hlen : period ≤ values.length) {j : ℕ} (hj : period ≤ j + 1) (hjn : j < values.length) :
    idx (sma values period) j =
      some (((values.drop (j + 1 - period)).take period).sum / period) := by
  unfold sma
  rw [if_neg (by push_neg; exact ⟨hp, hlen⟩), idx_range_map, if_pos hjn,
    if_neg (by omega)]

theorem emaGo_length (k e : ℚ) (l : List ℚ) : (emaGo k e l).length = l.length := by
  induction l generalizing e with
  | nil => rfl
  | cons v vs ih => simp [emaGo, ih]

theorem ema_length (values : List ℚ) (period : ℕ) :
    (ema values period).length = values.length := by
  unfold ema
  split
  · simp
  split
  · simp
  · rename_i h1 h2
    push_neg at h1 h2
    simp [emaGo_length]
    omega

theorem ema_all_none (values : List ℚ) (period : ℕ) (h : values.length < period) :
    ∀ x ∈ ema values period, x = none := by
  intro x hx
  unfold ema at hx
  split at hx
  · rcases List.mem_map.mp hx with ⟨a, -, rfl⟩
    rfl
  · rcases List.mem_map.mp hx with ⟨a, -, rfl⟩
    rfl

theorem rsiDeltas_length (l : List ℚ) : (rsiDeltas l).length = l.length - 1 := by
  induction l with
  | nil => rfl
  | cons a t ih =>
    cases t with
    | nil => rfl
    | cons b rest =>
      simpa [rsiDeltas] using ih

theorem gainsOf_length (l : List ℚ) : (gainsOf l).length = l.length - 1 := by
  simp [gainsOf, rsiDeltas_length]

theorem lossesOf_length (l : List ℚ) : (lossesOf l).length = l.length - 1 := by
  simp [lossesOf, rsiDeltas_length]

theorem rsi_length (values : List ℚ) (period : ℕ) :
    (rsi values period).length = values.length := by
  unfold rsi
  split
  · simp
  · rename_i h
    push_neg at h
    simp
    omega

theorem rsi_all_none (values : List ℚ) (period : ℕ) (h : values.length < period + 1) :
    ∀ x ∈ rsi values period, x = none := by
  unfold rsi
  rw [if_pos (Or.inr h)]
  simp

theorem rsi_idx_zero (values : List ℚ) (period : ℕ) : idx (rsi values period) 0 = none := by
  unfold rsi
  split
  · cases values with
    | nil => rfl
    | cons a t => simp [idx_cons_zero]
  · exact idx_cons_zero _ _

theorem rsi_idx_succ (values : List ℚ) (period : ℕ) (hp : period ≠ 0)
    (hlen : period + 1 ≤ values.length) {j : ℕ} (hj : j < values.length - 1) :
    idx (rsi values period) (j + 1) =
      if j + 1 < period then none
      else if avgLossAt values period j = 0 then some 100
      else some (round2 (100 - 100 /
        (1 + avgGainAt values period j / avgLossAt values period j))) := by
  unfold rsi
  rw [if_neg (by push_neg; exact ⟨hp, by omega⟩), idx_cons_succ, idx_range_map, if_pos hj]

theorem getD_drop (values : List ℚ) (p t : ℕ) :
    (values.drop p).getD t 0 = values.getD (p + t) 0 := by
  simp [List.getD_eq_getElem?_getD, List.getElem?_drop]

theorem idx_map_some (l : List ℚ) (t : ℕ) : idx (l.map some) t = l[t]? := by
  rw [idx_eq_getElem?, List.getElem?_map]
  cases l[t]? <;> rfl

theorem ema_eq (values : List ℚ) (period : ℕ) (hp : period ≠ 0)
    (hlen : period ≤ values.length) :
    ema values period =
      List.replicate (period - 1) (none : Option ℚ) ++
        (some ((values.take period).sum / period) ::
          (emaGo (2 / (period + 1)) ((values.take period).sum / period)
            (values.drop period)).map some) := by
  unfold ema
  rw [if_neg (by push_neg; exact ⟨hp, by omega⟩), if_neg (by omega)]

theorem ema_idx_lt (values : List ℚ) (period : ℕ) (hp : period ≠ 0)
    (hlen : period ≤ values.length) {j : ℕ} (hj : j + 1 < period) :
    idx (ema values period) j = none := by
  rw [ema_eq values period hp hlen,
    idx_append_left (by simp only [List.length_replicate]; omega), idx_replicate_none]

theorem ema_idx_seed (values : List ℚ) (period : ℕ) (hp : period ≠ 0)
    (hlen : period ≤ values.length) :
    idx (ema values period) (period - 1) = some ((values.take period).sum / period) := by
  rw [ema_eq values period hp hlen,
    idx_append_right (by simp only [List.length_replicate]; omega)]
  simp only [List.length_replicate, Nat.sub_self, idx_cons_zero]

theorem ema_idx_ge (values : List ℚ) (period : ℕ) (hp : period ≠ 0)
    (hlen : period ≤ values.length) {j : ℕ} (hj : period ≤ j) (hjn : j < values.length) :
    idx (ema values period) j =
      some ((emaGo (2 / (period + 1)) ((values.take period).sum / period)
        (values.drop period)).getD (j - period) 0) := by
  rw [ema_eq values period hp hlen,
    idx_append_right (by simp only [List.length_replicate]; omega)]
  have hsub : j - (List.replicate (period - 1) (none : Option ℚ)).length = (j - period) + 1 := by
    simp only [List.length_replicate]
    omega
  rw [hsub, idx_cons_succ, idx_map_some,
    List.getElem?_eq_getElem (by simp only [emaGo_length, List.length_drop]; omega)]
  congr 1
  simp [List.getD_eq_getElem?_getD, List.getElem?_eq_getElem,
    (by simp only [emaGo_length, List.length_drop]; omega : j - period < (emaGo (2 / (period + 1)) ((values.take period).sum / period) (values.drop period)).length)]

theorem emaGo_rec (k : ℚ) : ∀ (l : List ℚ) (e : ℚ) (t : ℕ), t + 1 < l.length →
    (emaGo k e l).getD (t + 1) 0 =
      l.getD (t + 1) 0 * k + (emaGo k e l).getD t 0 * (1 - k) := by
  intro l
  induction l with
  | nil => intro e t h; simp at h
  | cons v vs ih =>
    intro e t h
    cases t with
    | zero =>
      cases vs with
      | nil => simp at h
      | cons w ws => simp [emaGo, List.getD_cons_succ, List.getD_cons_zero]
    | succ t' =>
      have h' : t' + 1 < vs.length := by simpa using h
      simp only [emaGo, List.getD_cons_succ]
      exact ih _ t' h'

theorem rsi_defined (values : List ℚ) (period : ℕ) (hp : period ≠ 0)
    (hlen : period + 1 ≤ values.length) {j : ℕ} (hj : period ≤ j) (hjn : j < values.length) :
    ∃ v, idx (rsi values period) j = some v := by
  obtain ⟨j', rfl⟩ : ∃ j', j = j' + 1 := ⟨j - 1, by omega⟩
  rw [rsi_idx_succ values period hp hlen (by omega), if_neg (by omega)]
  split
  · exact ⟨100, rfl⟩
  · exact ⟨_, rfl⟩

theorem idx_of_le_length {xs : List (Option ℚ)} {j : ℕ} (h : xs.length ≤ j) :
    idx xs j = none := by
  rw [idx_eq_getElem?, List.getElem?_eq_none h]
  rfl

theorem rsiDeltas_mem : ∀ (l : List ℚ) (x : ℚ), x ∈ rsiDeltas l →
    ∃ t, t + 1 < l.length ∧ x = l.getD (t + 1) 0 - l.getD t 0 := by
  intro l
  induction l with
  | nil => intro x hx; simp [rsiDeltas] at hx
  | cons a t ih =>
    intro x hx
    cases t with
    | nil => simp [rsiDeltas] at hx
    | cons b rest =>
      simp only [rsiDeltas] at hx
      rcases List.mem_cons.mp hx with rfl | hx'
      · exact ⟨0, by simp, by simp⟩
      · obtain ⟨t', ht', rfl⟩ := ih x hx'
        exact ⟨t' + 1, by simp at ht' ⊢; omega, by simp [List.getD_cons_succ]⟩

theorem gainsOf_nonneg (values : List ℚ) : ∀ x ∈ gainsOf values, 0 ≤ x := by
  intro x hx
  rcases List.mem_map.mp hx with ⟨c, -, rfl⟩
  split
  · linarith
  · exact le_refl 0

theorem lossesOf_nonneg (values : List ℚ) : ∀ x ∈ lossesOf values, 0 ≤ x := by
  intro x hx
  rcases List.mem_map.mp hx with ⟨c, -, rfl⟩
  split
  · exact abs_nonneg c
  · exact le_refl 0

theorem avgGainAt_nonneg (values : List ℚ) (period i : ℕ) :
    0 ≤ avgGainAt values period i := by
  unfold avgGainAt
  refine div_nonneg (List.sum_nonneg ?_) (Nat.cast_nonneg period)
  intro x hx
  exact gainsOf_nonneg values x (List.mem_of_mem_drop (List.mem_of_mem_take hx))

theorem avgLossAt_nonneg (values : List ℚ) (period i : ℕ) :
    0 ≤ avgLossAt values period i := by
  unfold avgLossAt
  refine div_nonneg (List.sum_nonneg ?_) (Nat.cast_nonneg period)
  intro x hx
  exact lossesOf_nonneg values x (List.mem_of_mem_drop (List.mem_of_mem_take hx))

theorem round2_le_round2 {x y : ℚ} (h : x ≤ y) : round2 x ≤ round2 y := by
  unfold round2 jsRound
  have hf : (⌊x * 100 + 1/2⌋ : ℤ) ≤ ⌊y * 100 + 1/2⌋ :=
    Int.floor_le_floor (by linarith)
  have : ((⌊x * 100 + 1/2⌋ : ℤ) : ℚ) ≤ ((⌊y * 100 + 1/2⌋ : ℤ) : ℚ) := by
    exact_mod_cast hf
  linarith

theorem round2_zero : round2 0 = 0 := by
  norm_num [round2, jsRound]

theorem round2_hundred : round2 100 = 100 := by
  norm_num [round2, jsRound]

/-! ### Claims -/

/-- **C2.** Insufficient data degrades silently rather than failing: for every
    bar series of length strictly less than 30, `generateSignals` returns the
    empty signal list, and `evaluateFilters` returns `{matched: [], price: 0}`
    regardless of which filters are requested. -/
theorem insufficient_bars_degrade_silently (bars : List Bar)
    (filters : List ScreenerFilterId) (h : bars.length < 30) :
    generateSignals bars = [] ∧ evaluateFilters bars filters = ⟨[], 0⟩ := by
  constructor
  · unfold generateSignals
    rw [if_pos h]
  · unfold evaluateFilters
    rw [if_pos h]

theorem insufficient_bars_degrade_silently_witness :
    generateSignals [] = [] ∧ evaluateFilters [] [.rsiOversold] = ⟨[], 0⟩ :=
  insufficient_bars_degrade_silently [] [.rsiOversold] (by norm_num)

/-- **C4.** Length and insufficient-lookback invariant of the indicator
    library: for every input series and every period, `sma`, `ema` and `rsi`
    return an output sequence whose length equals the input length; and
    whenever the input length is strictly smaller than the period, the entire
    output is `null` (still of the input's length). -/
theorem indicator_length_and_insufficient_lookback (values : List ℚ) (period : ℕ) :
    ((sma values period).length = values.length ∧
     (ema values period).length = values.length ∧
     (rsi values period).length = values.length) ∧
    (values.length < period →
      (∀ x ∈ sma values period, x = none) ∧
      (∀ x ∈ ema values period, x = none) ∧
      (∀ x ∈ rsi values period, x = none)) :=
  ⟨⟨sma_length values period, ema_length values period, rsi_length values period⟩,
    fun h => ⟨sma_all_none values period h, ema_all_none values period h,
      rsi_all_none values period (by omega)⟩⟩

theorem indicator_length_and_insufficient_lookback_witness :
    ((sma [(1:ℚ), 2, 3] 5).length = 3 ∧ (ema [(1:ℚ), 2, 3] 5).length = 3 ∧
      (rsi [(1:ℚ), 2, 3] 5).length = 3) ∧
    ((∀ x ∈ sma [(1:ℚ), 2, 3] 5, x = none) ∧ (∀ x ∈ ema [(1:ℚ), 2, 3] 5, x = none) ∧
      (∀ x ∈ rsi [(1:ℚ), 2, 3] 5, x = none)) := by
  have h := indicator_length_and_insufficient_lookback [(1:ℚ), 2, 3] 5
  exact ⟨by simpa using h.1, h.2 (by norm_num)⟩

/-- **C5.** EMA seeding and recurrence: for every series of length ≥ period
    ≥ 1, `ema(values, period)` is absent before index `period-1`, its first
    defined value at index `period-1` equals the arithmetic mean (SMA) of the
    first `period` values, and every later index satisfies
    `ema[i] = values[i]*k + ema[i-1]*(1-k)` with `k = 2/(period+1)`
    (in particular EMA(5) on `[10,12,14,16,18]` at index 4 equals 14, see the
    witness). -/
theorem ema_seed_and_recurrence (values : List ℚ) (period : ℕ)
    (hp : 1 ≤ period) (hlen : period ≤ values.length) :
    (∀ j, j + 1 < period → idx (ema values period) j = none) ∧
    idx (ema values period) (period - 1) = some ((values.take period).sum / period) ∧
    (∀ j, period ≤ j → j < values.length →
      ∃ e, idx (ema values period) (j - 1) = some e ∧
        idx (ema values period) j =
          some (values.getD j 0 * (2 / (period + 1)) + e * (1 - 2 / (period + 1)))) := by
  refine ⟨fun j hj => ema_idx_lt values period (by omega) hlen hj,
    ema_idx_seed values period (by omega) hlen, ?_⟩
  intro j hj hjn
  rcases eq_or_lt_of_le hj with rfl | hlt
  · refine ⟨(values.take period).sum / period,
      ema_idx_seed values period (by omega) hlen, ?_⟩
    rw [ema_idx_ge values period (by omega) hlen le_rfl hjn, Nat.sub_self]
    have hD : (values.drop period) ≠ [] := by
      intro hnil
      have := congrArg List.length hnil
      simp at this
      omega
    obtain ⟨v, vs, hcons⟩ := List.exists_cons_of_ne_nil hD
    have hv : values.getD period 0 = v := by
      have := getD_drop values period 0
      rw [hcons] at this
      simpa using this.symm
    rw [hcons, hv]
    simp [emaGo]
  · refine ⟨(emaGo (2 / (period + 1)) ((values.take period).sum / period)
      (values.drop period)).getD (j - 1 - period) 0, ?_, ?_⟩
    · rw [ema_idx_ge values period (by omega) hlen (by omega) (by omega)]
    · rw [ema_idx_ge values period (by omega) hlen hj hjn]
      have ht : j - period = (j - 1 - period) + 1 := by omega
      rw [ht, emaGo_rec _ _ _ _ (by simp only [List.length_drop]; omega)]
      have hD : (values.drop period).getD (j - 1 - period + 1) 0 = values.getD j 0 := by
        rw [getD_drop]
        congr 1
        omega
      rw [hD]

theorem ema_seed_and_recurrence_witness :
    idx (ema [(10:ℚ), 12, 14, 16, 18] 5) 4 = some 14 := by
  have h := (ema_seed_and_recurrence [(10:ℚ), 12, 14, 16, 18] 5 (by norm_num)
    (by norm_num)).2.1
  norm_num [List.take_succ_cons, List.sum_cons] at h
  exact h

/-- **C6.** RSI range and extremes: for every series of length ≥ period+1
    (period ≥ 1), every defined `rsi` output lies in `[0,100]`; an index whose
    trailing average loss is exactly 0 carries exactly 100 (so a strictly
    increasing series gives RSI 100 at the last index), a strictly decreasing
    series gives exactly 0 at the last index, and otherwise the value is
    `100 - 100/(1 + avgGain/avgLoss)` rounded to 2 decimals. -/
theorem rsi_range_and_extremes (values : List ℚ) (period : ℕ)
    (hp : 1 ≤ period) (hlen : period + 1 ≤ values.length) :
    (∀ j v, idx (rsi values period) j = some v → 0 ≤ v ∧ v ≤ 100) ∧
    (∀ j, period ≤ j → j < values.length → avgLossAt values period (j - 1) = 0 →
      idx (rsi values period) j = some 100) ∧
    ((∀ t < values.length - 1, values.getD t 0 < values.getD (t + 1) 0) →
      idx (rsi values period) (values.length - 1) = some 100) ∧
    ((∀ t < values.length - 1, values.getD (t + 1) 0 < values.getD t 0) →
      idx (rsi values period) (values.length - 1) = some 0) ∧
    (∀ j, period ≤ j → j < values.length → avgLossAt values period (j - 1) ≠ 0 →
      idx (rsi values period) j = some (round2 (100 - 100 /
        (1 + avgGainAt values period (j - 1) / avgLossAt values period (j - 1))))) := by
  have hp0 : period ≠ 0 := by omega
  -- the `avgLoss = 0` branch, stated on the output index
  have hzero : ∀ j, period ≤ j → j < values.length →
      avgLossAt values period (j - 1) = 0 → idx (rsi values period) j = some 100 := by
    intro j hj hjn hz
    obtain ⟨j', rfl⟩ : ∃ j', j = j' + 1 := ⟨j - 1, by omega⟩
    rw [rsi_idx_succ values period hp0 hlen (by omega), if_neg (by omega),
      if_pos (by simpa using hz)]
  -- the `avgLoss ≠ 0` branch, stated on the output index
  have hformula : ∀ j, period ≤ j → j < values.length →
      avgLossAt values period (j - 1) ≠ 0 → idx (rsi values period) j =
        some (round2 (100 - 100 /
          (1 + avgGainAt values period (j - 1) / avgLossAt values period (j - 1)))) := by
    intro j hj hjn hz
    obtain ⟨j', rfl⟩ : ∃ j', j = j' + 1 := ⟨j - 1, by omega⟩
    rw [rsi_idx_succ values period hp0 hlen (by omega), if_neg (by omega),
      if_neg (by simpa using hz)]
    simp
  refine ⟨?_, hzero, ?_, ?_, hformula⟩
  · -- bounds on every defined value
    intro j v hv
    cases j with
    | zero => rw [rsi_idx_zero] at hv; cases hv
    | succ j' =>
      by_cases hjn : j' + 1 < values.length
      · rw [rsi_idx_succ values period hp0 hlen (by omega)] at hv
        split at hv
        · cases hv
        · split at hv
          · cases hv
            norm_num
          · cases hv
            rename_i hz
            have hg := avgGainAt_nonneg values period j'
            have hl := avgLossAt_nonneg values period j'
            have hlpos : 0 < avgLossAt values period j' := lt_of_le_of_ne hl (Ne.symm hz)
            set y : ℚ := 100 - 100 / (1 + avgGainAt values period j' / avgLossAt values period j')
            have hrs : 0 ≤ avgGainAt values period j' / avgLossAt values period j' :=
              div_nonneg hg hl
            have h1 : 0 < 1 + avgGainAt values period j' / avgLossAt values period j' := by
              linarith
            have hy0 : 0 ≤ y := by
              have : 100 / (1 + avgGainAt values period j' / avgLossAt values period j') ≤ 100 :=
                div_le_self (by norm_num) (by linarith)
              simp only [y]
              linarith
            have hy100 : y ≤ 100 := by
              have : 0 < 100 / (1 + avgGainAt values period j' / avgLossAt values period j') :=
                div_pos (by norm_num) h1
              simp only [y]
              linarith
            constructor
            · calc (0:ℚ) = round2 0 := round2_zero.symm
                _ ≤ round2 y := round2_le_round2 hy0
            · calc round2 y ≤ round2 100 := round2_le_round2 hy100
                _ = 100 := round2_hundred
      · rw [idx_of_le_length (by rw [rsi_length]; omega)] at hv
        cases hv
  · -- strictly increasing series: average loss vanishes at the last index
    intro hmono
    have hall0 : ∀ x ∈ lossesOf values, x = 0 := by
      intro x hx
      rcases List.mem_map.mp hx with ⟨c, hc, rfl⟩
      obtain ⟨t, ht, rfl⟩ := rsiDeltas_mem values c hc
      have := hmono t (by omega)
      rw [if_neg (by linarith)]
    have hz : avgLossAt values period (values.length - 1 - 1) = 0 := by
      unfold avgLossAt
      rw [List.sum_eq_zero, zero_div]
      intro x hx
      exact hall0 x (List.mem_of_mem_drop (List.mem_of_mem_take hx))
    exact hzero (values.length - 1) (by omega) (by omega) hz
  · -- strictly decreasing series: zero gains, positive losses
    intro hmono
    have hg0 : ∀ x ∈ gainsOf values, x = 0 := by
      intro x hx
      rcases List.mem_map.mp hx with ⟨c, hc, rfl⟩
      obtain ⟨t, ht, rfl⟩ := rsiDeltas_mem values c hc
      have := hmono t (by omega)
      rw [if_neg (by linarith)]
    have hgz : avgGainAt values period (values.length - 1 - 1) = 0 := by
      unfold avgGainAt
      rw [List.sum_eq_zero, zero_div]
      intro x hx
      exact hg0 x (List.mem_of_mem_drop (List.mem_of_mem_take hx))
    have hlpos_mem : ∀ x ∈ lossesOf values, 0 < x := by
      intro x hx
      rcases List.mem_map.mp hx with ⟨c, hc, rfl⟩
      obtain ⟨t, ht, rfl⟩ := rsiDeltas_mem values c hc
      have := hmono t (by omega)
      rw [if_pos (by linarith), abs_pos]
      exact ne_of_lt (by linarith)
    have hwin : (((lossesOf values).drop (values.length - 1 - 1 + 1 - period)).take
        period).length = period := by
      rw [List.length_take, List.length_drop, lossesOf_length]
      omega
    have hlz : avgLossAt values period (values.length - 1 - 1) ≠ 0 := by
      unfold avgLossAt
      have hpos : 0 < (((lossesOf values).drop (values.length - 1 - 1 + 1 - period)).take
          period).sum := by
        apply List.sum_pos
        · intro x hx
          exact hlpos_mem x (List.mem_of_mem_drop (List.mem_of_mem_take hx))
        · intro hnil
          rw [hnil] at hwin
          simp at hwin
          omega
      positivity
    have := hformula (values.length - 1) (by omega) (by omega) hlz
    rw [hgz] at this
    rw [this]
    norm_num [round2_zero]

theorem rsi_range_and_extremes_witness :
    idx (rsi [(10:ℚ), 11, 12, 13, 14, 15, 16, 17, 18, 19, 20, 21, 22, 23, 24, 25] 14) 15 =
      some 100 ∧
    idx (rsi [(25:ℚ), 24, 23, 22, 21, 20, 19, 18, 17, 16, 15, 14, 13, 12, 11, 10] 14) 15 =
      some 0 := by
  constructor
  · have h := (rsi_range_and_extremes
      [(10:ℚ), 11, 12, 13, 14, 15, 16, 17, 18, 19, 20, 21, 22, 23, 24, 25] 14
      (by norm_num) (by norm_num)).2.2.1 (by with_unfolding_all decide)
    simpa using h
  · have h := (rsi_range_and_extremes
      [(25:ℚ), 24, 23, 22, 21, 20, 19, 18, 17, 16, 15, 14, 13, 12, 11, 10] 14
      (by norm_num) (by norm_num)).2.2.2.1 (by with_unfolding_all decide)
    simpa using h

/-- **C10.** Confidence score bounds: `confidenceScore` returns exactly 0 for
    an empty signal list; for every non-empty signal list it returns a value
    in `[0.6, 1.0]` (the mean of the per-signal weights weak=0.6,
    moderate=0.8, strong=1.0, rounded to 2 decimals), so it never produces a
    value in the open interval `(0, 0.6)`. -/
theorem confidence_score_bounds :
    confidenceScore [] = 0 ∧
    (∀ l : List TradeSignal, l ≠ [] →
      confidenceScore l =
          round2 ((l.map (fun s => strengthWeight s.strength)).sum / l.length) ∧
        3/5 ≤ confidenceScore l ∧ confidenceScore l ≤ 1) ∧
    (∀ l : List TradeSignal, confidenceScore l = 0 ∨ 3/5 ≤ confidenceScore l) := by
  have hmain : ∀ l : List TradeSignal, l ≠ [] →
      confidenceScore l =
          round2 ((l.map (fun s => strengthWeight s.strength)).sum / l.length) ∧
        3/5 ≤ confidenceScore l ∧ confidenceScore l ≤ 1 := by
    intro l hl
    have hn : l.length ≠ 0 := fun h => hl (List.length_eq_zero.mp h)
    have hnpos : (0:ℚ) < l.length := by
      have : 0 < l.length := Nat.pos_of_ne_zero hn
      exact_mod_cast this
    have heq : confidenceScore l =
        round2 ((l.map (fun s => strengthWeight s.strength)).sum / l.length) := by
      unfold confidenceScore
      rw [if_neg hn]
    have hlow : (3:ℚ)/5 * l.length ≤ (l.map (fun s => strengthWeight s.strength)).sum := by
      have := List.card_nsmul_le_sum (l.map (fun s => strengthWeight s.strength)) (3/5) ?_
      · rw [List.length_map] at this
        rw [nsmul_eq_mul] at this
        linarith
      · intro x hx
        rcases List.mem_map.mp hx with ⟨s, -, rfl⟩
        cases s.strength <;> norm_num [strengthWeight]
    have hhigh : (l.map (fun s => strengthWeight s.strength)).sum ≤ l.length := by
      have := List.sum_le_card_nsmul (l.map (fun s => strengthWeight s.strength)) 1 ?_
      · rw [List.length_map] at this
        rw [nsmul_eq_mul, mul_one] at this
        exact this
      · intro x hx
        rcases List.mem_map.mp hx with ⟨s, -, rfl⟩
        cases s.strength <;> norm_num [strengthWeight]
    have hmean_lo : (3:ℚ)/5 ≤ (l.map (fun s => strengthWeight s.strength)).sum / l.length := by
      rw [le_div_iff₀ hnpos]
      linarith
    have hmean_hi : (l.map (fun s => strengthWeight s.strength)).sum / l.length ≤ 1 := by
      rw [div_le_one hnpos]
      exact hhigh
    refine ⟨heq, ?_, ?_⟩
    · rw [heq]
      calc (3:ℚ)/5 = round2 (3/5) := by norm_num [round2, jsRound]
        _ ≤ _ := round2_le_round2 hmean_lo
    · rw [heq]
      calc round2 ((l.map (fun s => strengthWeight s.strength)).sum / l.length)
          ≤ round2 1 := round2_le_round2 hmean_hi
        _ = 1 := by norm_num [round2, jsRound]
  refine ⟨rfl, hmain, ?_⟩
  intro l
  rcases eq_or_ne l [] with rfl | hl
  · exact Or.inl rfl
  · exact Or.inr (hmain l hl).2.1

theorem confidence_score_bounds_witness :
    confidenceScore [] = 0 ∧
    (confidenceScore [⟨.BUY, .RSI, .strong, 0⟩] =
        round2 (([⟨.BUY, .RSI, .strong, 0⟩].map
          (fun s : TradeSignal => strengthWeight s.strength)).sum /
            ([⟨.BUY, .RSI, .strong, 0⟩] : List TradeSignal).length) ∧
      3/5 ≤ confidenceScore [⟨.BUY, .RSI, .strong, 0⟩] ∧
      confidenceScore [⟨.BUY, .RSI, .strong, 0⟩] ≤ 1) :=
  ⟨confidence_score_bounds.1,
    confidence_score_bounds.2.1 [⟨.BUY, .RSI, .strong, 0⟩] (by simp)⟩

/-! ### Weekly resampling (C8) -/

theorem groupsOf5_getElem? : ∀ (j : ℕ) (l : List Bar), 5 * j < l.length →
    (groupsOf5 l)[j]? = some ((l.drop (5 * j)).take 5) := by
  intro j
  induction j with
  | zero =>
    intro l h
    cases l with
    | nil => simp at h
    | cons a t => rw [groupsOf5]; simp
  | succ j' ih =>
    intro l h
    cases l with
    | nil => simp at h
    | cons a t =>
      rw [groupsOf5, List.getElem?_cons_succ,
        ih ((a :: t).drop 5) (by simp only [List.length_drop, List.length_cons] at h ⊢; omega),
        List.drop_drop]
      have heq : 5 + 5 * j' = 5 * (j' + 1) := by omega
      rw [heq]

theorem groupsOf5_length : ∀ (n : ℕ) (l : List Bar), l.length ≤ n →
    (groupsOf5 l).length = (l.length + 4) / 5 := by
  intro n
  induction n with
  | zero =>
    intro l h
    have : l = [] := List.length_eq_zero.mp (by omega)
    subst this
    simp [groupsOf5]
  | succ n ih =>
    intro l h
    cases l with
    | nil => simp [groupsOf5]
    | cons a t =>
      rw [groupsOf5]
      simp only [List.length_cons]
      rw [ih ((a :: t).drop 5)
        (by simp only [List.length_drop, List.length_cons] at h ⊢; omega)]
      simp only [List.length_drop, List.length_cons]
      omega

theorem foldl_max_mem (l : List ℚ) : ∀ a : ℚ, l.foldl max a = a ∨ l.foldl max a ∈ l := by
  induction l with
  | nil => intro a; left; rfl
  | cons x xs ih =>
    intro a
    rw [List.foldl_cons]
    rcases ih (max a x) with h | h
    · rcases max_choice a x with heq | heq
      · left; rw [h, heq]
      · right; rw [h, heq]; exact List.mem_cons_self x xs
    · right; exact List.mem_cons_of_mem x h

theorem foldl_max_bound (l : List ℚ) : ∀ a : ℚ,
    a ≤ l.foldl max a ∧ ∀ x ∈ l, x ≤ l.foldl max a := by
  induction l with
  | nil => intro a; exact ⟨le_refl a, by simp⟩
  | cons y ys ih =>
    intro a
    rw [List.foldl_cons]
    obtain ⟨h1, h2⟩ := ih (max a y)
    refine ⟨le_trans (le_max_left a y) h1, ?_⟩
    intro x hx
    rcases List.mem_cons.mp hx with rfl | hx'
    · exact le_trans (le_max_right a x) h1
    · exact h2 x hx'

theorem foldl_min_mem (l : List ℚ) : ∀ a : ℚ, l.foldl min a = a ∨ l.foldl min a ∈ l := by
  induction l with
  | nil => intro a; left; rfl
  | cons x xs ih =>
    intro a
    rw [List.foldl_cons]
    rcases ih (min a x) with h | h
    · rcases min_choice a x with heq | heq
      · left; rw [h, heq]
      · right; rw [h, heq]; exact List.mem_cons_self x xs
    · right; exact List.mem_cons_of_mem x h

theorem foldl_min_bound (l : List ℚ) : ∀ a : ℚ,
    l.foldl min a ≤ a ∧ ∀ x ∈ l, l.foldl min a ≤ x := by
  induction l with
  | nil => intro a; exact ⟨le_refl a, by simp⟩
  | cons y ys ih =>
    intro a
    rw [List.foldl_cons]
    obtain ⟨h1, h2⟩ := ih (min a y)
    refine ⟨le_trans h1 (min_le_left a y), ?_⟩
    intro x hx
    rcases List.mem_cons.mp hx with rfl | hx'
    · exact le_trans h1 (min_le_right a x)
    · exact h2 x hx'

/-- **C8.** Weekly resampling: when `requireWeeklyAgree` is set, the
    orchestrator groups the daily bars into consecutive runs of 5 starting
    from the first bar (the trailing run may be shorter), and the `j`-th
    weekly bar has `open` equal to the group's first `open`, `high` the
    maximum of the group's highs, `low` the minimum of the group's lows,
    `close` the group's last `close`, and `volume` the sum of the group's
    volumes. -/
theorem weekly_resample_ohlcv (bars : List Bar) (j : ℕ) (h : 5 * j < bars.length) :
    (resampleWeekly bars).length = (bars.length + 4) / 5 ∧
    ∃ w, (resampleWeekly bars)[j]? = some w ∧
      (∃ b0, ((bars.drop (5 * j)).take 5).head? = some b0 ∧ w.«open» = b0.«open») ∧
      (w.high ∈ ((bars.drop (5 * j)).take 5).map Bar.high ∧
        ∀ b ∈ (bars.drop (5 * j)).take 5, b.high ≤ w.high) ∧
      (w.low ∈ ((bars.drop (5 * j)).take 5).map Bar.low ∧
        ∀ b ∈ (bars.drop (5 * j)).take 5, w.low ≤ b.low) ∧
      (∃ bl, ((bars.drop (5 * j)).take 5).getLast? = some bl ∧ w.close = bl.close) ∧
      w.volume = some ((((bars.drop (5 * j)).take 5).map (fun b => b.volume.getD 0)).sum) := by
  constructor
  · unfold resampleWeekly
    rw [List.length_map]
    exact groupsOf5_length bars.length bars le_rfl
  have hne : (bars.drop (5 * j)).take 5 ≠ [] := by
    intro hnil
    have := congrArg List.length hnil
    simp only [List.length_take, List.length_drop, List.length_nil] at this
    omega
  obtain ⟨c, rest, hcons⟩ := List.exists_cons_of_ne_nil hne
  refine ⟨weeklyOf ((bars.drop (5 * j)).take 5), ?_, ?_, ?_, ?_, ?_, ?_⟩
  · unfold resampleWeekly
    rw [List.getElem?_map, groupsOf5_getElem? j bars h]
    rfl
  · rw [hcons]
    exact ⟨c, rfl, rfl⟩
  · rw [hcons]
    constructor
    · show (rest.map Bar.high).foldl max c.high ∈ _
      rcases foldl_max_mem (rest.map Bar.high) c.high with heq | hmem
      · rw [heq]
        exact List.mem_cons_self _ _
      · exact List.mem_cons_of_mem _ hmem
    · intro b hb
      rcases List.mem_cons.mp hb with rfl | hb'
      · exact (foldl_max_bound (rest.map Bar.high) b.high).1
      · exact (foldl_max_bound (rest.map Bar.high) c.high).2 b.high
          (List.mem_map_of_mem Bar.high hb')
  · rw [hcons]
    constructor
    · show (rest.map Bar.low).foldl min c.low ∈ _
      rcases foldl_min_mem (rest.map Bar.low) c.low with heq | hmem
      · rw [heq]
        exact List.mem_cons_self _ _
      · exact List.mem_cons_of_mem _ hmem
    · intro b hb
      rcases List.mem_cons.mp hb with rfl | hb'
      · exact (foldl_min_bound (rest.map Bar.low) b.low).1
      · exact (foldl_min_bound (rest.map Bar.low) c.low).2 b.low
          (List.mem_map_of_mem Bar.low hb')
  · rw [hcons]
    exact ⟨(c :: rest).getLast (by simp), List.getLast?_eq_getLast _ _, rfl⟩
  · rw [hcons]
    rfl

theorem weekly_resample_ohlcv_witness :
    ∃ w, (resampleWeekly ((List.range 7).map (fun t =>
        ⟨t, (t:ℚ), (t:ℚ), (t:ℚ), (t:ℚ), some 1⟩)))[1]? = some w ∧
      (∃ b0, ((((List.range 7).map (fun t => (⟨t, (t:ℚ), (t:ℚ), (t:ℚ), (t:ℚ), some 1⟩ : Bar))).drop 5).take 5).head? = some b0 ∧
        w.«open» = b0.«open») := by
  have h := weekly_resample_ohlcv ((List.range 7).map (fun t =>
    (⟨t, (t:ℚ), (t:ℚ), (t:ℚ), (t:ℚ), some 1⟩ : Bar))) 1 (by simp)
  obtain ⟨-, w, hw, hopen, -, -, -, -⟩ := h
  exact ⟨w, by simpa using hw, by simpa using hopen⟩

/-- **C3.** With `requireTwoPlus` set to true, the screener orchestrator
    excludes any symbol whose evaluation matches only a single signal from one
    indicator family — whatever its strength and however high its confidence —
    and inclusion requires matched signals spanning at least 2 distinct
    indicator families pointing the same direction (BUY vs SELL).
    (`hasTwoPlusAgreement`/`weightedConfidenceScore` are modelled from the
    spec, as their implementation is not among the provided sources.) -/
theorem require_two_plus_excludes_single_family (s : TradeSignal) (minConfidence : ℚ)
    (weeklyAgree : Bool) :
    includeSymbol [s] true minConfidence weeklyAgree = false ∧
    (∀ matched : List TradeSignal,
      includeSymbol matched true minConfidence weeklyAgree = true →
        ∃ a ∈ matched, ∃ b ∈ matched, a.type = b.type ∧ a.indicator ≠ b.indicator) := by
  constructor
  · unfold includeSymbol hasTwoPlusAgreementOk
    simp
  · intro matched hinc
    unfold includeSymbol at hinc
    simp only [Bool.and_eq_true, if_pos] at hinc
    have hok : hasTwoPlusAgreementOk matched = true := hinc.2.1.1
    unfold hasTwoPlusAgreementOk at hok
    simpa using of_decide_eq_true hok

theorem require_two_plus_excludes_single_family_witness :
    includeSymbol [⟨.BUY, .RSI, .strong, 0⟩] true (7/10) true = false ∧
    (∃ a ∈ [(⟨.BUY, .RSI, .moderate, 0⟩ : TradeSignal), ⟨.BUY, .EMA, .moderate, 0⟩],
      ∃ b ∈ [(⟨.BUY, .RSI, .moderate, 0⟩ : TradeSignal), ⟨.BUY, .EMA, .moderate, 0⟩],
        a.type = b.type ∧ a.indicator ≠ b.indicator) := by
  refine ⟨(require_two_plus_excludes_single_family ⟨.BUY, .RSI, .strong, 0⟩ (7/10) true).1,
    (require_two_plus_excludes_single_family ⟨.BUY, .RSI, .strong, 0⟩ (7/10) true).2
      [⟨.BUY, .RSI, .moderate, 0⟩, ⟨.BUY, .EMA, .moderate, 0⟩] ?_⟩
  unfold includeSymbol hasTwoPlusAgreementOk weightedConfidenceScore confidenceScore
  norm_num [round2, jsRound, strengthWeight]
  decide

theorem price_eq_last_close (bars : List Bar) (h : bars ≠ []) :
    (closesOf bars).getD (bars.length - 1) 0 = (bars.getLast h).close := by
  have hlen : bars.length - 1 < bars.length := by
    have := List.length_pos.mpr h
    omega
  rw [closesOf, List.getD_eq_getElem?_getD, List.getElem?_map,
    List.getElem?_eq_getElem hlen, List.getLast_eq_getElem]
  rfl

/-- **C9.** Empty filter set yields no matches: for every bar series of length
    ≥ 30, `evaluateFilters(bars, [])` returns `matched = []` and `price` equal
    to the latest close, even when `generateSignals` on the same bars is
    non-empty — the merge step only admits generated signals whose indicator
    family is implied by some requested filter, and no filter is requested. -/
theorem empty_filterset_no_matches (bars : List Bar) (h : 30 ≤ bars.length) :
    (evaluateFilters bars []).matched = [] ∧
    ∃ b, bars.getLast? = some b ∧ (evaluateFilters bars []).price = b.close := by
  have hne : bars ≠ [] := by
    intro hnil
    rw [hnil] at h
    simp at h
  unfold evaluateFilters
  rw [if_neg (by omega)]
  constructor
  · show ([] : List ScreenerFilterId).flatMap _ ++ _ = []
    rw [List.flatMap_nil, List.nil_append]
    apply List.filter_eq_nil_iff.mpr
    intro a _
    have hneed : indicatorsNeeded [] = [] := rfl
    rw [hneed]
    simp
  · refine ⟨bars.getLast hne, List.getLast?_eq_getLast bars hne, ?_⟩
    show (closesOf bars).getD (lastIdx bars) 0 = _
    exact price_eq_last_close bars hne

/-! ### Membership machinery for the signal generator -/

theorem mem_rsiCrossSignals_ind {r : List (Option ℚ)} {i ts : ℕ} {s : TradeSignal}
    (hs : s ∈ rsiCrossSignals r i ts) : s.indicator = .RSI := by
  unfold rsiCrossSignals at hs
  split at hs <;> first
    | (split at hs <;> first
        | (rcases List.mem_singleton.mp hs with rfl; rfl)
        | (split at hs <;> first
            | (rcases List.mem_singleton.mp hs with rfl; rfl)
            | cases hs))
    | cases hs

theorem mem_emaCrossSignals_ind {e : List (Option ℚ)} {closes : List ℚ} {i : ℕ}
    {st : Strength} {ts : ℕ} {s : TradeSignal}
    (hs : s ∈ emaCrossSignals e closes i st ts) : s.indicator = .EMA := by
  unfold emaCrossSignals at hs
  split at hs <;> first
    | (split at hs <;> first
        | (rcases List.mem_singleton.mp hs with rfl; rfl)
        | (split at hs <;> first
            | (rcases List.mem_singleton.mp hs with rfl; rfl)
            | cases hs))
    | cases hs

theorem mem_macdCrossSignals_ind {md : MacdData} {i ts : ℕ} {s : TradeSignal}
    (hs : s ∈ macdCrossSignals md i ts) : s.indicator = .MACD := by
  unfold macdCrossSignals at hs
  split at hs <;> first
    | (split at hs <;> first
        | (rcases List.mem_singleton.mp hs with rfl; rfl)
        | (split at hs <;> first
            | (rcases List.mem_singleton.mp hs with rfl; rfl)
            | cases hs))
    | cases hs

theorem mem_bollingerSignals_ind {bbMid bbVar sma20 : List (Option ℚ)}
    {closes volumes : List ℚ} {i ts : ℕ} {s : TradeSignal}
    (hs : s ∈ bollingerSignals bbMid bbVar sma20 closes volumes i ts) :
    s.indicator = .BOLLINGER := by
  unfold bollingerSignals at hs
  split at hs <;> first
    | (split at hs <;> first
        | (rcases List.mem_singleton.mp hs with rfl; rfl)
        | (split at hs <;> first
            | (rcases List.mem_singleton.mp hs with rfl; rfl)
            | cases hs))
    | cases hs

theorem trendAdjust_fields (b : Bool) (s : TradeSignal) :
    (trendAdjust b s).type = s.type ∧ (trendAdjust b s).indicator = s.indicator ∧
    (s.strength = .strong → (trendAdjust b s).strength = .strong) := by
  simp only [trendAdjust]
  split <;> split <;> simp_all

theorem volAdjust_fields (move currentAtr : ℚ) (s : TradeSignal) :
    (volAdjust move currentAtr s).type = s.type ∧
    (volAdjust move currentAtr s).indicator = s.indicator ∧
    (s.strength = .strong → (volAdjust move currentAtr s).strength = .strong) := by
  simp only [volAdjust]
  split <;> simp_all

theorem exists_mem_applyTrendContext (bars : List Bar) (l : List TradeSignal)
    {s : TradeSignal} (hs : s ∈ l) :
    ∃ s' ∈ applyTrendContext bars l, s'.type = s.type ∧ s'.indicator = s.indicator ∧
      (s.strength = .strong → s'.strength = .strong) := by
  unfold applyTrendContext
  split
  · exact ⟨trendAdjust _ s, List.mem_map_of_mem _ hs, (trendAdjust_fields _ s).1,
      (trendAdjust_fields _ s).2.1, (trendAdjust_fields _ s).2.2⟩
  · exact ⟨s, hs, rfl, rfl, fun h => h⟩

theorem exists_mem_applyVolatilityContext (bars : List Bar) (l : List TradeSignal)
    {s : TradeSignal} (hs : s ∈ l) :
    ∃ s' ∈ applyVolatilityContext bars l, s'.type = s.type ∧ s'.indicator = s.indicator ∧
      (s.strength = .strong → s'.strength = .strong) := by
  unfold applyVolatilityContext
  split
  · exact ⟨volAdjust _ _ s, List.mem_map_of_mem _ hs, (volAdjust_fields _ _ s).1,
      (volAdjust_fields _ _ s).2.1, (volAdjust_fields _ _ s).2.2⟩
  · exact ⟨s, hs, rfl, rfl, fun h => h⟩

theorem mem_applyTrendContext_ind (bars : List Bar) (l : List TradeSignal)
    {s' : TradeSignal} (hs' : s' ∈ applyTrendContext bars l) :
    ∃ s ∈ l, s'.indicator = s.indicator := by
  unfold applyTrendContext at hs'
  split at hs'
  · rcases List.mem_map.mp hs' with ⟨s, hs, rfl⟩
    exact ⟨s, hs, (trendAdjust_fields _ s).2.1⟩
  · exact ⟨s', hs', rfl⟩

theorem mem_applyVolatilityContext_ind (bars : List Bar) (l : List TradeSignal)
    {s' : TradeSignal} (hs' : s' ∈ applyVolatilityContext bars l) :
    ∃ s ∈ l, s'.indicator = s.indicator := by
  unfold applyVolatilityContext at hs'
  split at hs'
  · rcases List.mem_map.mp hs' with ⟨s, hs, rfl⟩
    exact ⟨s, hs, (volAdjust_fields _ _ s).2.1⟩
  · exact ⟨s', hs', rfl⟩

/-- Among the five rule lists, only rule 1 produces RSI-indicator signals, so
    an RSI signal survives in `generateSignals` exactly when rule 1 fired. -/
theorem generateSignals_exists_rsi_iff (bars : List Bar) (h : 30 ≤ bars.length) :
    (∃ s ∈ generateSignals bars, s.indicator = .RSI) ↔
      rsiCrossSignals (rsi (closesOf bars) 14) (lastIdx bars) (tsOf bars) ≠ [] := by
  unfold generateSignals
  rw [if_neg (by omega)]
  constructor
  · rintro ⟨s2, hs2, hind⟩
    obtain ⟨s1, hs1, hind1⟩ := mem_applyVolatilityContext_ind bars _ hs2
    obtain ⟨s0, hs0, hind0⟩ := mem_applyTrendContext_ind bars _ hs1
    have hrsi : s0.indicator = .RSI := by rw [← hind0, ← hind1, hind]
    unfold rawSignals at hs0
    intro hnil
    rcases List.mem_append.mp hs0 with h4 | hE
    rcases List.mem_append.mp h4 with h3 | hD
    rcases List.mem_append.mp h3 with h2 | hC
    rcases List.mem_append.mp h2 with hA | hB
    · rw [hnil] at hA
      cases hA
    · rw [mem_emaCrossSignals_ind hB] at hrsi
      cases hrsi
    · rw [mem_emaCrossSignals_ind hC] at hrsi
      cases hrsi
    · rw [mem_macdCrossSignals_ind hD] at hrsi
      cases hrsi
    · rw [mem_bollingerSignals_ind hE] at hrsi
      cases hrsi
  · intro hne
    obtain ⟨s0, hs0⟩ := List.exists_mem_of_ne_nil _ hne
    have hind0 : s0.indicator = .RSI := mem_rsiCrossSignals_ind hs0
    have hraw : s0 ∈ rawSignals bars := by
      unfold rawSignals
      exact List.mem_append_left _ (List.mem_append_left _ (List.mem_append_left _
        (List.mem_append_left _ hs0)))
    obtain ⟨s1, hs1, -, hind1, -⟩ := exists_mem_applyTrendContext bars _ hraw
    obtain ⟨s2, hs2, -, hind2, -⟩ := exists_mem_applyVolatilityContext bars _ hs1
    exact ⟨s2, hs2, by rw [hind2, hind1, hind0]⟩

theorem rsiCrossSignals_of_some {r : List (Option ℚ)} {i ts : ℕ} {p c : ℚ}
    (hp : idx r (i - 1) = some p) (hc : idx r i = some c) :
    rsiCrossSignals r i ts =
      if p < 30 ∧ 30 ≤ c then [⟨.BUY, .RSI, if c < 40 then .moderate else .weak, ts⟩]
      else if 70 < p ∧ c ≤ 70 then [⟨.SELL, .RSI, if 60 < c then .moderate else .weak, ts⟩]
      else [] := by
  unfold rsiCrossSignals
  rw [hp, hc]

/-- The `rsiOversold` filter condition at the latest bar: RSI(14) is defined
    there and strictly below 30. -/
def rsiBelow30AtLast (bars : List Bar) : Prop :=
  ∃ c, idx (rsi (closesOf bars) 14) (lastIdx bars) = some c ∧ c < 30

/-- Rule-1 upward cross: RSI(14) was strictly below 30 at the previous bar and
    at least 30 at the latest bar. -/
def rsiCrossedUp30 (bars : List Bar) : Prop :=
  ∃ p c, idx (rsi (closesOf bars) 14) (lastIdx bars - 1) = some p ∧
    idx (rsi (closesOf bars) 14) (lastIdx bars) = some c ∧ p < 30 ∧ 30 ≤ c

/-- Rule-1 downward cross: RSI(14) was strictly above 70 at the previous bar
    and at most 70 at the latest bar. -/
def rsiCrossedDown70 (bars : List Bar) : Prop :=
  ∃ p c, idx (rsi (closesOf bars) 14) (lastIdx bars - 1) = some p ∧
    idx (rsi (closesOf bars) 14) (lastIdx bars) = some c ∧ 70 < p ∧ c ≤ 70

/-- Full characterisation of the RSI-indicator signals in
    `evaluateFilters(bars, [rsiOversold]).matched`: the filter itself fires on
    RSI < 30, and the merge step additionally admits the generated rule-1
    crossing signals. -/
theorem matched_rsi_iff (bars : List Bar) (h : 30 ≤ bars.length) :
    (∃ s ∈ (evaluateFilters bars [.rsiOversold]).matched, s.indicator = .RSI) ↔
      (rsiBelow30AtLast bars ∨ rsiCrossedUp30 bars ∨ rsiCrossedDown70 bars) := by
  have hclen : (closesOf bars).length = bars.length := List.length_map _ _
  obtain ⟨p, hp⟩ := rsi_defined (closesOf bars) 14 (by norm_num) (by omega)
    (j := lastIdx bars - 1) (by unfold lastIdx; omega) (by unfold lastIdx; omega)
  obtain ⟨c, hc⟩ := rsi_defined (closesOf bars) 14 (by norm_num) (by omega)
    (j := lastIdx bars) (by unfold lastIdx; omega) (by unfold lastIdx; omega)
  have hone : evalOneFilter (mkFilterCtx bars) .rsiOversold =
      if c < 30 then [⟨.BUY, .RSI, .moderate, tsOf bars⟩] else [] := by
    unfold evalOneFilter mkFilterCtx
    rw [hc]
  have hgen : (∃ s ∈ generateSignals bars, s.indicator = .RSI) ↔
      ((p < 30 ∧ 30 ≤ c) ∨ (70 < p ∧ c ≤ 70)) := by
    rw [generateSignals_exists_rsi_iff bars h,
      rsiCrossSignals_of_some hp hc]
    split_ifs <;> simp_all
  have hbelow : rsiBelow30AtLast bars ↔ c < 30 := by
    constructor
    · rintro ⟨c', hc', hlt⟩
      rw [hc] at hc'
      cases hc'
      exact hlt
    · intro hlt
      exact ⟨c, hc, hlt⟩
  have hup : rsiCrossedUp30 bars ↔ (p < 30 ∧ 30 ≤ c) := by
    constructor
    · rintro ⟨p', c', hp', hc', h1, h2⟩
      rw [hp] at hp'
      rw [hc] at hc'
      cases hp'
      cases hc'
      exact ⟨h1, h2⟩
    · rintro ⟨h1, h2⟩
      exact ⟨p, c, hp, hc, h1, h2⟩
  have hdown : rsiCrossedDown70 bars ↔ (70 < p ∧ c ≤ 70) := by
    constructor
    · rintro ⟨p', c', hp', hc', h1, h2⟩
      rw [hp] at hp'
      rw [hc] at hc'
      cases hp'
      cases hc'
      exact ⟨h1, h2⟩
    · rintro ⟨h1, h2⟩
      exact ⟨p, c, hp, hc, h1, h2⟩
  rw [hbelow, hup, hdown, ← hgen]
  unfold evaluateFilters
  rw [if_neg (by omega)]
  simp only [List.flatMap_cons, List.flatMap_nil, List.append_nil]
  rw [hone]
  have hneed : indicatorsNeeded [.rsiOversold] = [.RSI] := rfl
  constructor
  · rintro ⟨s, hs, hind⟩
    rcases List.mem_append.mp hs with hl | hr
    · left
      split at hl
      · assumption
      · cases hl
    · right
      exact ⟨s, (List.mem_filter.mp hr).1, hind⟩
  · rintro (hlt | ⟨s, hs, hind⟩)
    · refine ⟨⟨.BUY, .RSI, .moderate, tsOf bars⟩, List.mem_append_left _ ?_, rfl⟩
      rw [if_pos hlt]
      exact List.mem_singleton.mpr rfl
    · refine ⟨s, List.mem_append_right _ ?_, hind⟩
      apply List.mem_filter.mpr
      refine ⟨hs, ?_⟩
      rw [hneed, hind]
      simp

/-! ### A concrete 30-bar series: 28 one-point drops, then a 50-point jump.
    RSI(14) is 0 at the second-to-last bar and 79.37 at the last bar, so the
    `rsiOversold` filter does not fire but the generated rule-1 upward-cross
    RSI signal is merged in. -/

def closLit : List ℚ := [100, 99, 98, 97, 96, 95, 94, 93, 92, 91, 90, 89, 88, 87, 86,
  85, 84, 83, 82, 81, 80, 79, 78, 77, 76, 75, 74, 73, 72, 122]

def c1bars : List Bar := closLit.map (fun c => ⟨0, c, c, c, c, some 100⟩)

theorem c1bars_length : c1bars.length = 30 := by
  simp [c1bars, closLit]

theorem c1bars_closes : closesOf c1bars = closLit := by
  simp [closesOf, c1bars, List.map_map]
  rfl

theorem c1bars_lastIdx : lastIdx c1bars = 29 := by
  rw [lastIdx, c1bars_length]

theorem closLit_rsi_28 : idx (rsi closLit 14) 28 = some 0 := by
  have hg : avgGainAt closLit 14 27 = 0 := by
    norm_num [avgGainAt, gainsOf, rsiDeltas, closLit]
  have hl : avgLossAt closLit 14 27 = 1 := by
    norm_num [avgLossAt, lossesOf, rsiDeltas, closLit]
  rw [show (28:ℕ) = 27 + 1 from rfl,
    rsi_idx_succ closLit 14 (by norm_num) (by simp [closLit]) (by simp [closLit]),
    if_neg (by norm_num), hl, if_neg (by norm_num), hg]
  norm_num [round2, jsRound]

theorem closLit_rsi_29 : idx (rsi closLit 14) 29 = some (7937/100) := by
  have hg : avgGainAt closLit 14 28 = 25/7 := by
    norm_num [avgGainAt, gainsOf, rsiDeltas, closLit]
  have hl : avgLossAt closLit 14 28 = 13/14 := by
    norm_num [avgLossAt, lossesOf, rsiDeltas, closLit]
  rw [show (29:ℕ) = 28 + 1 from rfl,
    rsi_idx_succ closLit 14 (by norm_num) (by simp [closLit]) (by simp [closLit]),
    if_neg (by norm_num), hl, if_neg (by norm_num), hg]
  norm_num [round2, jsRound]

theorem c1bars_rsi_prev : idx (rsi (closesOf c1bars) 14) (lastIdx c1bars - 1) = some 0 := by
  rw [c1bars_closes, c1bars_lastIdx]
  exact closLit_rsi_28

theorem c1bars_rsi_last :
    idx (rsi (closesOf c1bars) 14) (lastIdx c1bars) = some (7937/100) := by
  rw [c1bars_closes, c1bars_lastIdx]
  exact closLit_rsi_29

/-- **C1 (counterexample).** The claim "the matched list of
    `evaluateFilters(bars, [rsiOversold])` contains a signal with indicator
    RSI iff RSI(14) at the last index is strictly below 30" is false: on
    `c1bars` the RSI at the last bar is 79.37 (not below 30), yet the merged
    rule-1 upward-cross signal puts an RSI signal in the matched list. -/
theorem rsi_oversold_iff_counterexample :
    ¬ ((∃ s ∈ (evaluateFilters c1bars [.rsiOversold]).matched, s.indicator = .RSI) ↔
      rsiBelow30AtLast c1bars) := by
  intro hiff
  have h30 : 30 ≤ c1bars.length := by rw [c1bars_length]
  have hA : ∃ s ∈ (evaluateFilters c1bars [.rsiOversold]).matched, s.indicator = .RSI := by
    apply (matched_rsi_iff c1bars h30).mpr
    exact Or.inr (Or.inl ⟨0, 7937/100, c1bars_rsi_prev, c1bars_rsi_last,
      by norm_num, by norm_num⟩)
  obtain ⟨c, hc, hlt⟩ := hiff.mp hA
  rw [c1bars_rsi_last] at hc
  cases hc
  norm_num at hlt

/-- **C1 (amended).** The matched list of
    `evaluateFilters(bars, [rsiOversold])` contains a signal with indicator
    RSI iff RSI(14) at the last index is strictly below 30, **or** RSI(14)
    crossed up through 30 between the previous and latest bar, **or** RSI(14)
    crossed down through 70 between the previous and latest bar (the latter
    two because `evaluateFilters` merges in the RSI-family signals generated
    by `generateSignals`). -/
theorem rsi_oversold_fires_iff_amended (bars : List Bar) (h : 30 ≤ bars.length) :
    ((∃ s ∈ (evaluateFilters bars [.rsiOversold]).matched, s.indicator = .RSI) ↔
      (rsiBelow30AtLast bars ∨ rsiCrossedUp30 bars ∨ rsiCrossedDown70 bars)) :=
  matched_rsi_iff bars h

theorem rsi_oversold_fires_iff_amended_witness :
    ((∃ s ∈ (evaluateFilters c1bars [.rsiOversold]).matched, s.indicator = .RSI) ↔
      (rsiBelow30AtLast c1bars ∨ rsiCrossedUp30 c1bars ∨ rsiCrossedDown70 c1bars)) :=
  rsi_oversold_fires_iff_amended c1bars (by rw [c1bars_length])

theorem empty_filterset_no_matches_witness :
    ((evaluateFilters c1bars []).matched = [] ∧
      ∃ b, c1bars.getLast? = some b ∧ (evaluateFilters c1bars []).price = b.close) ∧
    generateSignals c1bars ≠ [] := by
  have h30 : 30 ≤ c1bars.length := by rw [c1bars_length]
  refine ⟨empty_filterset_no_matches c1bars h30, ?_⟩
  have hne : rsiCrossSignals (rsi (closesOf c1bars) 14) (lastIdx c1bars)
      (tsOf c1bars) ≠ [] := by
    rw [rsiCrossSignals_of_some c1bars_rsi_prev c1bars_rsi_last,
      if_pos (by norm_num)]
    simp
  obtain ⟨s, hs, -⟩ := (generateSignals_exists_rsi_iff c1bars h30).mpr hne
  intro h0
  rw [h0] at hs
  cases hs

/-! ### Bollinger breakout (C7) -/

/-- `aboveUpper` is exactly the source's `price > mid + k·√variance`. -/
theorem aboveUpper_iff_real (price mean v k : ℚ) (hv : 0 ≤ v) (hk : 0 ≤ k) :
    aboveUpper price mean v k ↔
      (mean : ℝ) + (k : ℝ) * Real.sqrt (v : ℝ) < (price : ℝ) := by
  unfold aboveUpper
  constructor
  · rintro ⟨h1, h2⟩
    have h1' : (mean : ℝ) < price := by exact_mod_cast h1
    have h2' : (k : ℝ) ^ 2 * (v : ℝ) < ((price : ℝ) - mean) ^ 2 := by exact_mod_cast h2
    have hs : Real.sqrt ((k : ℝ) ^ 2 * v) < (price : ℝ) - mean := by
      rw [Real.sqrt_lt' (by linarith)]
      exact h2'
    rw [Real.sqrt_mul (by positivity) _, Real.sqrt_sq (by exact_mod_cast hk)] at hs
    linarith
  · intro hlt
    have hknn : 0 ≤ (k : ℝ) * Real.sqrt v :=
      mul_nonneg (by exact_mod_cast hk) (Real.sqrt_nonneg _)
    have h1' : (mean : ℝ) < price := by linarith
    refine ⟨by exact_mod_cast h1', ?_⟩
    have hlt' : (k : ℝ) * Real.sqrt v < (price : ℝ) - mean := by linarith
    have hsq : ((k : ℝ) * Real.sqrt v) ^ 2 < ((price : ℝ) - mean) ^ 2 :=
      pow_lt_pow_left₀ hlt' hknn (by norm_num)
    rw [mul_pow, Real.sq_sqrt (by exact_mod_cast hv)] at hsq
    exact_mod_cast hsq

theorem bollingerVariance_idx (values : List ℚ) (period : ℕ) {j : ℕ}
    (hj : period ≤ j + 1) (hjn : j < values.length) :
    idx (bollingerVariance values period) j =
      some ((((values.drop (j + 1 - period)).take period).map
        (fun v => (v - (idx (sma values period) j).getD 0) ^ 2)).sum / (period : ℚ)) := by
  unfold bollingerVariance
  rw [idx_range_map, if_pos hjn, if_neg (by omega)]

theorem bollingerVariance_nonneg (values : List ℚ) (period : ℕ) {j : ℕ} {v : ℚ}
    (h : idx (bollingerVariance values period) j = some v) : 0 ≤ v := by
  unfold bollingerVariance at h
  rw [idx_range_map] at h
  split at h
  · split at h
    · cases h
    · have hv := (Option.some.inj h).symm
      rw [hv]
      apply div_nonneg _ (Nat.cast_nonneg period)
      apply List.sum_nonneg
      intro x hx
      rcases List.mem_map.mp hx with ⟨a, -, rfl⟩
      exact sq_nonneg _
  · cases h

/-- **C7.** Bollinger breakout signal: for every bar series of length ≥ 30
    whose last close is strictly above the 20-period Bollinger upper band
    (SMA20 + 2 population standard deviations) and whose last volume is
    strictly greater than 1.5 times the mean of the trailing 20 volumes,
    `generateSignals` contains a BUY signal with indicator BOLLINGER and
    strength `strong` (the post-processing strength adjustments never weaken
    a `strong` signal). -/
theorem bollinger_breakout_strong_buy (bars : List Bar) (h30 : 30 ≤ bars.length)
    (m v : ℚ)
    (hm : idx (sma (closesOf bars) 20) (lastIdx bars) = some m)
    (hv : idx (bollingerVariance (closesOf bars) 20) (lastIdx bars) = some v)
    (hup : (m : ℝ) + 2 * Real.sqrt (v : ℝ) < ((closesOf bars).getD (lastIdx bars) 0 : ℝ))
    (hvol : 3/2 * average (lastN 20 (volumesOf bars)) <
      (volumesOf bars).getD (lastIdx bars) 0) :
    ∃ s ∈ generateSignals bars,
      s.type = .BUY ∧ s.indicator = .BOLLINGER ∧ s.strength = .strong := by
  have hvnn : 0 ≤ v := bollingerVariance_nonneg (closesOf bars) 20 hv
  have habove : aboveUpper ((closesOf bars).getD (lastIdx bars) 0) m v 2 := by
    rw [aboveUpper_iff_real _ _ _ _ hvnn (by norm_num)]
    push_cast
    exact hup
  have hboll : bollingerSignals (sma (closesOf bars) 20)
      (bollingerVariance (closesOf bars) 20) (sma (closesOf bars) 20)
      (closesOf bars) (volumesOf bars) (lastIdx bars) (tsOf bars) =
      [⟨.BUY, .BOLLINGER, .strong, tsOf bars⟩] := by
    unfold bollingerSignals
    rw [hm, hv]
    simp only [Option.isSome_some, Option.getD_some, eq_self_iff_true, and_self, if_true]
    rw [if_pos ⟨habove, hvol⟩]
  have hraw : (⟨.BUY, .BOLLINGER, .strong, tsOf bars⟩ : TradeSignal) ∈ rawSignals bars := by
    unfold rawSignals
    apply List.mem_append_right
    rw [hboll]
    exact List.mem_singleton.mpr rfl
  obtain ⟨s1, hs1, ht1, hi1, hstr1⟩ := exists_mem_applyTrendContext bars _ hraw
  obtain ⟨s2, hs2, ht2, hi2, hstr2⟩ := exists_mem_applyVolatilityContext bars _ hs1
  refine ⟨s2, ?_, ?_, ?_, ?_⟩
  · unfold generateSignals
    rw [if_neg (by omega)]
    exact hs2
  · rw [ht2, ht1]
  · rw [hi2, hi1]
  · exact hstr2 (hstr1 rfl)

def c7closLit : List ℚ := [100, 100, 100, 100, 100, 100, 100, 100, 100, 100, 100, 100,
  100, 100, 100, 100, 100, 100, 100, 100, 100, 100, 100, 100, 100, 100, 100, 100, 100, 200]

def c7bars : List Bar :=
  c7closLit.map (fun c => ⟨0, c, c, c, c, some (if c = 200 then 1000 else 100)⟩)

theorem c7bars_closes : closesOf c7bars = c7closLit := by
  simp [closesOf, c7bars, List.map_map]
  rfl

theorem c7bars_length : c7bars.length = 30 := by
  simp [c7bars, c7closLit]

theorem c7bars_lastIdx : lastIdx c7bars = 29 := by
  rw [lastIdx, c7bars_length]

theorem c7bars_sma20 : idx (sma (closesOf c7bars) 20) (lastIdx c7bars) = some 105 := by
  rw [c7bars_closes, c7bars_lastIdx,
    sma_idx c7closLit 20 (by norm_num) (by simp [c7closLit]) (by norm_num)
      (by simp [c7closLit])]
  norm_num [c7closLit]

theorem c7bars_variance :
    idx (bollingerVariance (closesOf c7bars) 20) (lastIdx c7bars) = some 475 := by
  rw [c7bars_closes, c7bars_lastIdx,
    bollingerVariance_idx c7closLit 20 (by norm_num) (by simp [c7closLit])]
  rw [sma_idx c7closLit 20 (by norm_num) (by simp [c7closLit]) (by norm_num)
    (by simp [c7closLit])]
  norm_num [c7closLit]

theorem bollinger_breakout_strong_buy_witness :
    ∃ s ∈ generateSignals c7bars,
      s.type = .BUY ∧ s.indicator = .BOLLINGER ∧ s.strength = .strong := by
  have h30 : 30 ≤ c7bars.length := by rw [c7bars_length]
  have hpx : ((closesOf c7bars).getD (lastIdx c7bars) 0 : ℚ) = 200 := by
    rw [c7bars_closes, c7bars_lastIdx]
    norm_num [c7closLit]
  have hup : ((105 : ℚ) : ℝ) + 2 * Real.sqrt ((475 : ℚ) : ℝ) <
      (((closesOf c7bars).getD (lastIdx c7bars) 0 : ℚ) : ℝ) := by
    rw [hpx]
    have h2 := (aboveUpper_iff_real 200 105 475 2 (by norm_num) (by norm_num)).mp
      (by norm_num [aboveUpper])
    push_cast at h2 ⊢
    linarith
  have hvol : 3/2 * average (lastN 20 (volumesOf c7bars)) <
      (volumesOf c7bars).getD (lastIdx c7bars) 0 := by
    rw [c7bars_lastIdx]
    norm_num [volumesOf, c7bars, c7closLit, lastN, average]
    rw [if_neg (by simp)]
    norm_num
  exact bollinger_breakout_strong_buy c7bars h30 105 475 c7bars_sma20 c7bars_variance
    hup hvol

end Swingsage
